import Mathlib

/-
Verification of GalTransl/SafeWrite.py (atomic write, validation, backup
management).  The module operates on files within a single directory (the
target's parent): we model that directory as a list of file entries, each
carrying a name, a modification time and its byte content.  Filesystem
modification times are modelled by a logical clock that advances on every
file write, matching the role `st_mtime` plays in the source (the sole
ordering key of backup snapshots).  Byte strings are lists of naturals;
file names are lists of characters, so that the glob patterns
`{stem}_*_backup{ext}` (BackupManager) and the staged-file naming scheme
`.{stem}_{timestamp}_tmp{ext}` (AtomicFileWriter._create_temp_file) can be
stated and reasoned about literally.
-/

/-- Byte strings: the `data: bytes` payloads written by the module. -/
abbrev Bytes := List Nat

/-- File names within the target's directory, as character lists. -/
abbrev FName := List Char

/-- One file of the target's directory: its name, its filesystem
modification time (`st_mtime`, modelled by a logical clock value) and its
content. -/
structure FileEntry where
  name : FName
  mtime : Nat
  content : Bytes
  deriving Repr, DecidableEq

/-- The target's directory: its files plus the logical clock used to stamp
modification times.  Every write stamps the current clock and advances it,
so mtimes of distinct writes are distinct (the idealisation of the
microsecond timestamps the source relies on for ordering). -/
structure FS where
  files : List FileEntry
  clock : Nat
  deriving Repr, DecidableEq

/-- Look up a file's content by name (Path.exists / read). -/
def FS.lookup (st : FS) (n : FName) : Option Bytes :=
  match st.files.find? (fun e => e.name = n) with
  | some e => some e.content
  | none => none

/-- Write `c` to file `n` (open 'wb' + write): truncates any previous file
of that name, stamps the current clock as mtime, advances the clock. -/
def FS.write (st : FS) (n : FName) (c : Bytes) : FS :=
  { files := ⟨n, st.clock, c⟩ :: st.files.filter (fun e => e.name ≠ n),
    clock := st.clock + 1 }

/-- Delete file `n` (Path.unlink). -/
def FS.del (st : FS) (n : FName) : FS :=
  { st with files := st.files.filter (fun e => e.name ≠ n) }

/-- Atomic rename of `src` onto `dst` (Path.replace): in one operation the
source entry takes the destination name; its mtime and content move with
it, any previous destination entry disappears.  Defined only when `src`
exists (the caller stages it first). -/
def FS.rename (st : FS) (src dst : FName) : FS :=
  match st.files.find? (fun e => e.name = src) with
  | some e =>
      { st with files :=
          ⟨dst, e.mtime, e.content⟩ ::
            (st.files.filter (fun f => f.name ≠ src)).filter (fun f => f.name ≠ dst) }
  | none => st

/-- Well-formed directory states: file names are distinct (a directory maps
each name to one file), mtimes are distinct (the idealised clock never
stamps twice) and all mtimes precede the clock. -/
structure FS.WF (st : FS) : Prop where
  nodup_names : (st.files.map FileEntry.name).Nodup
  nodup_mtimes : (st.files.map FileEntry.mtime).Nodup
  mtime_lt_clock : ∀ e ∈ st.files, e.mtime < st.clock

/-- The target file's name: `{stem}{ext}` (Path stem and suffix). -/
def targetName (stem ext : FName) : FName := stem ++ ext

/-- The backup snapshot name produced by BackupManager.create_backup:
`{stem}_{timestamp}_backup{ext}`. -/
def backupName (stem ts ext : FName) : FName :=
  stem ++ '_' :: ts ++ ("_backup".data ++ ext)

/-- The staged (temporary) file name produced by
AtomicFileWriter._create_temp_file: `.{stem}_{timestamp}_tmp{ext}`. -/
def tempName (stem ts ext : FName) : FName :=
  '.' :: stem ++ '_' :: ts ++ ("_tmp".data ++ ext)

/-- Boolean matcher for the backup glob `{stem}_*_backup{ext}` used by
_cleanup_old_backups and restore_from_backup: the name starts with
`{stem}_`, ends with `_backup{ext}`, and is long enough that the prefix
and suffix do not overlap (the `*` may match the empty string). -/
def matchesBackup (stem ext n : FName) : Bool :=
  (stem ++ ['_']).isPrefixOf n &&
    (("_backup".data ++ ext).isSuffixOf n) &&
    stem.length + 1 + (7 + ext.length) ≤ n.length

/-- Boolean matcher for the staging pattern `.{stem}_*_tmp{ext}`. -/
def matchesTemp (stem ext n : FName) : Bool :=
  (('.' :: stem ++ ['_']).isPrefixOf n) &&
    (("_tmp".data ++ ext).isSuffixOf n) &&
    stem.length + 2 + (4 + ext.length) ≤ n.length

/-- Splitting lemma: when two decompositions of one list share a suffix at
least as long as one side's, that side's tail factors through the shared
suffix. -/
theorem exists_mid_of_append_eq {α} {a b d : List α} (c : List α)
    (h : a ++ b = c ++ d) (hl : d.length ≤ b.length) :
    ∃ m, b = m ++ d := by
  refine ⟨b.take (b.length - d.length), ?_⟩
  have hlen : a.length + b.length = c.length + d.length := by
    have := congrArg List.length h
    simpa [List.length_append] using this
  have hdrop : (a ++ b).drop (a.length + (b.length - d.length)) =
      (c ++ d).drop (c.length + 0) := by
    rw [h]
    congr 1
    omega
  rw [List.drop_append, List.drop_append] at hdrop
  simp at hdrop
  conv_lhs => rw [← List.take_append_drop (b.length - d.length) b]
  rw [hdrop]

/-- The backup matcher accepts exactly the names of the form
`{stem}_{mid}_backup{ext}` — the meaning of the glob
`{stem}_*_backup{ext}`. -/
theorem matchesBackup_iff {stem ext n : FName} :
    matchesBackup stem ext n = true ↔ ∃ mid, n = backupName stem mid ext := by
  unfold matchesBackup backupName
  constructor
  · intro h
    simp only [Bool.and_eq_true, decide_eq_true_eq, List.isPrefixOf_iff_prefix,
      List.isSuffixOf_iff_suffix] at h
    obtain ⟨⟨⟨r1, hpre⟩, ⟨r2, hsuf⟩⟩, hlen⟩ := h
    have h2 : (stem ++ ['_']) ++ r1 = r2 ++ ("_backup".data ++ ext) := by
      rw [hpre, hsuf]
    have hl : ("_backup".data ++ ext).length ≤ r1.length := by
      have hn := congrArg List.length hpre
      simp only [List.length_append, List.length_cons, List.length_nil] at hn ⊢
      omega
    obtain ⟨m, hm⟩ := exists_mid_of_append_eq r2 h2 hl
    refine ⟨m, ?_⟩
    rw [← hpre, hm]
    simp
  · rintro ⟨mid, rfl⟩
    simp only [Bool.and_eq_true, decide_eq_true_eq, List.isPrefixOf_iff_prefix,
      List.isSuffixOf_iff_suffix]
    refine ⟨⟨⟨mid ++ ("_backup".data ++ ext), by simp⟩,
      ⟨stem ++ '_' :: mid, by simp⟩⟩, ?_⟩
    simp [List.length_append]
    omega

/-- The staging matcher accepts exactly the names of the form
`.{stem}_{mid}_tmp{ext}`. -/
theorem matchesTemp_iff {stem ext n : FName} :
    matchesTemp stem ext n = true ↔ ∃ mid, n = tempName stem mid ext := by
  unfold matchesTemp tempName
  constructor
  · intro h
    simp only [Bool.and_eq_true, decide_eq_true_eq, List.isPrefixOf_iff_prefix,
      List.isSuffixOf_iff_suffix] at h
    obtain ⟨⟨⟨r1, hpre⟩, ⟨r2, hsuf⟩⟩, hlen⟩ := h
    have h2 : ('.' :: stem ++ ['_']) ++ r1 = r2 ++ ("_tmp".data ++ ext) := by
      rw [hpre, hsuf]
    have hl : ("_tmp".data ++ ext).length ≤ r1.length := by
      have hn := congrArg List.length hpre
      simp only [List.length_append, List.length_cons, List.length_nil] at hn ⊢
      omega
    obtain ⟨m, hm⟩ := exists_mid_of_append_eq r2 h2 hl
    refine ⟨m, ?_⟩
    rw [← hpre, hm]
    simp
  · rintro ⟨mid, rfl⟩
    simp only [Bool.and_eq_true, decide_eq_true_eq, List.isPrefixOf_iff_prefix,
      List.isSuffixOf_iff_suffix]
    refine ⟨⟨⟨mid ++ ("_tmp".data ++ ext), by simp⟩,
      ⟨'.' :: stem ++ '_' :: mid, by simp⟩⟩, ?_⟩
    simp [List.length_append]
    omega

/-- A backup snapshot name is never a staged-file name: the two naming
schemes differ in their fixed suffixes (`_backup` vs `_tmp`). -/
theorem backupName_ne_tempName (stem ts mid ext : FName) :
    backupName stem ts ext ≠ tempName stem mid ext := by
  intro h
  have hL : backupName stem ts ext =
      (stem ++ '_' :: (ts ++ "_bac".data)) ++ ("kup".data ++ ext) := by
    unfold backupName
    rw [show ("_backup".data : List Char) = "_bac".data ++ "kup".data from rfl]
    simp
  have hR : tempName stem mid ext =
      ('.' :: stem ++ '_' :: (mid ++ ['_'])) ++ ("tmp".data ++ ext) := by
    unfold tempName
    rw [show ("_tmp".data : List Char) = ['_'] ++ "tmp".data from rfl]
    simp
  rw [hL, hR] at h
  have := List.append_inj_right' h (by simp)
  have h3 := List.append_cancel_right this
  exact absurd h3 (by decide)

/-- The target name is never a backup snapshot name (the snapshot name is
strictly longer). -/
theorem targetName_ne_backupName (stem ts ext : FName) :
    targetName stem ext ≠ backupName stem ts ext := by
  intro h
  have := congrArg List.length h
  simp [targetName, backupName, List.length_append] at this
  omega

/-- The target name is never a staged-file name (the staged name is
strictly longer). -/
theorem targetName_ne_tempName (stem ts ext : FName) :
    targetName stem ext ≠ tempName stem ts ext := by
  intro h
  have := congrArg List.length h
  simp [targetName, tempName, List.length_append] at this
  omega

/-- The target file itself never matches its own backup glob. -/
theorem target_not_matchesBackup (stem ext : FName) :
    matchesBackup stem ext (targetName stem ext) = false := by
  rw [Bool.eq_false_iff]
  intro h
  obtain ⟨mid, hm⟩ := matchesBackup_iff.mp h
  exact targetName_ne_backupName stem mid ext hm

/-- The target file itself never matches the staging pattern. -/
theorem target_not_matchesTemp (stem ext : FName) :
    matchesTemp stem ext (targetName stem ext) = false := by
  rw [Bool.eq_false_iff]
  intro h
  obtain ⟨mid, hm⟩ := matchesTemp_iff.mp h
  exact targetName_ne_tempName stem mid ext hm

/-- A staged file never matches the backup glob of its own target. -/
theorem temp_not_matchesBackup (stem ts ext : FName) :
    matchesBackup stem ext (tempName stem ts ext) = false := by
  rw [Bool.eq_false_iff]
  intro h
  obtain ⟨mid, hm⟩ := matchesBackup_iff.mp h
  exact backupName_ne_tempName stem mid ts ext hm.symm

/-- A backup snapshot never matches the staging pattern of its target. -/
theorem backup_not_matchesTemp (stem ts ext : FName) :
    matchesTemp stem ext (backupName stem ts ext) = false := by
  rw [Bool.eq_false_iff]
  intro h
  obtain ⟨mid, hm⟩ := matchesTemp_iff.mp h
  exact backupName_ne_tempName stem ts mid ext hm

/-- A freshly generated snapshot name does match its own backup glob. -/
theorem backupName_matchesBackup (stem ts ext : FName) :
    matchesBackup stem ext (backupName stem ts ext) = true :=
  matchesBackup_iff.mpr ⟨ts, rfl⟩

/-- A freshly generated staged name does match the staging pattern. -/
theorem tempName_matchesTemp (stem ts ext : FName) :
    matchesTemp stem ext (tempName stem ts ext) = true :=
  matchesTemp_iff.mpr ⟨ts, rfl⟩

/-- JSON values as parsed by orjson.loads.  The float payload is dropped
because the validator only inspects type tags (isinstance checks). -/
inductive JValue where
  | jnull
  | jbool (b : Bool)
  | jint (n : Int)
  | jfloat
  | jstr (s : String)
  | jarr (items : List JValue)
  | jobj (fields : List (String × JValue))

/-- Python dict key lookup on a parsed JSON object. -/
def lookupKey (fields : List (String × JValue)) (k : String) : Option JValue :=
  match fields.find? (fun p => p.fst = k) with
  | some p => some p.snd
  | none => none

/-- The required record keys of DataValidator._validate_cache_structure. -/
def required_fields : List String :=
  ["index", "name", "pre_jp", "post_jp", "pre_zh"]

/-- Model of `isinstance(value, (str, int))`.  A Python bool is a subclass
of int, so `jbool` passes this check, exactly as `True`/`False` pass
`isinstance(x, int)` in the source. -/
def isStrOrInt : JValue → Bool
  | .jstr _ => true
  | .jint _ => true
  | .jbool _ => true
  | _ => false

/-- Per-record check of _validate_cache_structure: first the presence of
every required key (`required_fields - set(item.keys())` empty), then the
type of every required key's value. -/
def validate_item (fields : List (String × JValue)) : Bool :=
  required_fields.all (fun k => (lookupKey fields k).isSome) &&
    required_fields.all (fun k =>
      match lookupKey fields k with
      | some v => isStrOrInt v
      | none => false)

/-- DataValidator._validate_cache_structure: the payload must be a list;
every element must be a dict holding all required keys with str/int-typed
values. -/
def validate_cache_structure (data : JValue) : Bool :=
  match data with
  | .jarr items =>
      items.all (fun it =>
        match it with
        | .jobj fields => validate_item fields
        | _ => false)
  | _ => false

/-- DataValidator.validate_json_file, parameterised by the JSON parser
(orjson.loads): the file must exist, be non-empty, parse, and pass the
structural check; each check short-circuits to false, as do the
exception handlers of the source. -/
def validate_json_file (parse : Bytes → Option JValue) (st : FS) (n : FName) :
    Bool :=
  match st.lookup n with
  | none => false
  | some content =>
    if content.length = 0 then false
    else
      match parse content with
      | none => false
      | some data => validate_cache_structure data

/-- Failure injection for the filesystem calls of one run: each flag makes
the corresponding call raise (an OSError-like exception) when the source
reaches it.  `temp_junk` is the partial content left behind when the
staged-file write itself raises midway.  `unlink_fails` selects, per file
name, whether deleting that file raises (used by retention pruning and by
the __aexit__ cleanup). -/
structure Oracle where
  mkdir_fails : Bool
  temp_open_fails : Bool
  temp_write_fails : Bool
  temp_junk : Bytes
  backup_copy_fails : Bool
  restore_copy_fails : Bool
  replace_fails : Bool
  unlink_fails : FName → Bool

/-- An oracle under which every filesystem call succeeds. -/
def Oracle.ok : Oracle :=
  ⟨false, false, false, [], false, false, false, fun _ => false⟩

/-- BackupManager configuration: `backup_retention_count` (default 3) and
`enable_backup` (default True).  The spec types retentionCount as a
non-negative integer. -/
structure BackupManager where
  retention_count : Nat
  enable_backup : Bool

/-- Descending modification-time order used by
`backup_files.sort(key=lambda x: x.stat().st_mtime, reverse=True)`. -/
def mtimeDesc (a b : FileEntry) : Prop := b.mtime ≤ a.mtime

instance : DecidableRel mtimeDesc := fun a b =>
  inferInstanceAs (Decidable (b.mtime ≤ a.mtime))

instance : IsTotal FileEntry mtimeDesc :=
  ⟨fun a b => (Nat.le_total a.mtime b.mtime).symm⟩

instance : IsTrans FileEntry mtimeDesc :=
  ⟨fun _ _ _ hab hbc => Nat.le_trans hbc hab⟩

/-- The deletion loop of _cleanup_old_backups.  The `try` block wraps the
whole loop, so the first unlink that raises aborts the remaining
deletions (the exception is caught and logged at the function level). -/
def unlinkLoop (o : Oracle) (st : FS) : List FName → FS
  | [] => st
  | n :: rest => if o.unlink_fails n then st else unlinkLoop o (st.del n) rest

/-- BackupManager._cleanup_old_backups: list snapshots matching the backup
glob, return if at most `retention_count` of them exist, otherwise sort by
mtime descending and delete everything past the first `retention_count`. -/
def cleanup_old_backups (o : Oracle) (bm : BackupManager) (st : FS)
    (stem ext : FName) : FS :=
  let backup_files := st.files.filter (fun e => matchesBackup stem ext e.name)
  if backup_files.length ≤ bm.retention_count then st
  else
    let sorted := List.insertionSort mtimeDesc backup_files
    let files_to_delete := sorted.drop bm.retention_count
    unlinkLoop o st (files_to_delete.map FileEntry.name)

/-- BackupManager.create_backup: no-op when backups are disabled or the
target is missing; otherwise copy the target's bytes to a fresh
timestamped snapshot, prune old snapshots, and return the snapshot name.
Any exception inside is caught and yields None (a copy failure is modelled
as failing at open, before the destination is created). -/
def create_backup (o : Oracle) (bm : BackupManager) (st : FS)
    (stem ext : FName) : Option FName × FS :=
  if ¬ bm.enable_backup then (none, st)
  else
    match st.lookup (targetName stem ext) with
    | none => (none, st)
    | some content =>
      if o.backup_copy_fails then (none, st)
      else
        let bname := backupName stem (toString st.clock).data ext
        let st1 := st.write bname content
        let st2 := cleanup_old_backups o bm st1 stem ext
        (some bname, st2)

/-- BackupManager.restore_from_backup: glob the snapshots, fail when none
exist, pick the newest by mtime, validate it structurally, and copy its
bytes over the target with a plain (non-atomic) write.  Every failure
path returns false and is caught by the surrounding try. -/
def restore_from_backup (o : Oracle) (parse : Bytes → Option JValue)
    (st : FS) (stem ext : FName) : Bool × FS :=
  let backup_files := st.files.filter (fun e => matchesBackup stem ext e.name)
  if backup_files.isEmpty then (false, st)
  else
    match List.insertionSort mtimeDesc backup_files with
    | [] => (false, st)
    | latest_backup :: _ =>
      if ¬ validate_json_file parse st latest_backup.name then (false, st)
      else if o.restore_copy_fails then (false, st)
      else
        match st.lookup latest_backup.name with
        | none => (false, st)
        | some content => (true, st.write (targetName stem ext) content)

/-- AtomicFileWriter.write_atomic for one target `{stem}{ext}`:
create the staged file name (after mkdir of the parent), write the data to
the staged file with fsync, run the optional validate_func on the staged
path, back up an existing target through the optional backup manager
(whose exceptions never escape), then atomically replace the target.  Any
exception is caught and turns into a `false` result.  The third component
is the writer's `temp_path` attribute after the call (used by __aexit__).
The staged-file timestamp is the current clock, standing in for
`int(time.time() * 1000000)`. -/
def write_atomic (o : Oracle) (bm : Option BackupManager) (st : FS)
    (stem ext : FName) (data : Bytes)
    (validate_func : Option (Bytes → Option Bool)) :
    Bool × FS × Option FName :=
  if o.mkdir_fails then (false, st, none)
  else
    let temp_path := tempName stem (toString st.clock).data ext
    if o.temp_open_fails then (false, st, some temp_path)
    else if o.temp_write_fails then
      (false, st.write temp_path o.temp_junk, some temp_path)
    else
      let st1 := st.write temp_path data
      let proceed : Unit → Bool × FS × Option FName := fun _ =>
        let st2 :=
          match bm with
          | some b =>
            if (st1.lookup (targetName stem ext)).isSome then
              (create_backup o b st1 stem ext).2
            else st1
          | none => st1
        if o.replace_fails then (false, st2, some temp_path)
        else (true, st2.rename temp_path (targetName stem ext), some temp_path)
      match validate_func with
      | some vf =>
        match vf data with
        | none => (false, st1, some temp_path)
        | some false => (false, st1, some temp_path)
        | some true => proceed ()
      | none => proceed ()

/-- AtomicFileWriter.__aexit__: if `temp_path` is set and the file still
exists, unlink it; an unlink failure is caught and logged. -/
def aexit_cleanup (o : Oracle) (st : FS) (temp_path : Option FName) : FS :=
  match temp_path with
  | none => st
  | some tp =>
    if (st.lookup tp).isSome then
      if o.unlink_fails tp then st else st.del tp
    else st

/-- One full use of the writer as the source intends it:
`async with AtomicFileWriter(target) as w: await w.write_atomic(...)` —
enter (acquire the instance lock), run write_atomic once, exit (clean up
the staged file best-effort, release the lock). -/
def writer_session (o : Oracle) (bm : Option BackupManager) (st : FS)
    (stem ext : FName) (data : Bytes)
    (validate_func : Option (Bytes → Option Bool)) : Bool × FS :=
  let r := write_atomic o bm st stem ext data validate_func
  (r.1, aexit_cleanup o r.2.1 r.2.2)

/-- Values of the SafeWriteConfig dictionary. -/
inductive ConfigVal where
  | b (val : Bool)
  | i (val : Int)
  deriving DecidableEq, Repr

/-- SafeWriteConfig.DEFAULT_CONFIG, key for key. -/
def DEFAULT_CONFIG : List (String × ConfigVal) :=
  [("enable_safe_write", .b true),
   ("backup_retention_count", .i 3),
   ("write_verification", .b true),
   ("temp_file_cleanup", .b true),
   ("write_timeout_seconds", .i 30),
   ("enable_backup", .b true)]

/-- SafeWriteConfig: defaults overlaid with the caller's overrides
(`{**DEFAULT_CONFIG}` then `config.update(config_dict)`). -/
structure SafeWriteConfig where
  config : List (String × ConfigVal)

/-- SafeWriteConfig.__init__. -/
def SafeWriteConfig.init (config_dict : Option (List (String × ConfigVal))) :
    SafeWriteConfig :=
  match config_dict with
  | none => ⟨DEFAULT_CONFIG⟩
  | some d =>
    ⟨(DEFAULT_CONFIG.filter (fun p => (d.find? (fun q => q.1 = p.1)).isNone))
      ++ d⟩

/-- SafeWriteConfig.get. -/
def SafeWriteConfig.get (c : SafeWriteConfig) (k : String) : Option ConfigVal :=
  match c.config.find? (fun p => p.1 = k) with
  | some p => some p.2
  | none => none

/-- Phase of one context-managed write call (`async with` + write_atomic):
before the lock is acquired, while the write sequence is in flight with
the lock held, and after __aexit__ released the lock. -/
inductive WriterPc where
  | start
  | inFlight
  | done
  deriving DecidableEq, Repr

/-- One caller's context-managed write call.  `lock_id` identifies the
asyncio.Lock the call acquires: AtomicFileWriter.__init__ executes
`self._lock = asyncio.Lock()`, creating a fresh lock per writer instance,
so calls through distinct instances carry distinct lock ids even when
their `target` paths coincide. -/
structure WriterTask where
  lock_id : Nat
  target : FName
  pc : WriterPc
  deriving DecidableEq, Repr

/-- Two concurrent callers and the set of currently held locks. -/
structure LockSys where
  w0 : WriterTask
  w1 : WriterTask
  held : List Nat
  deriving DecidableEq, Repr

/-- One cooperative step of a single caller: __aenter__ suspends until its
own lock is free and then acquires it; a caller holding its lock finishes
the write sequence and releases in __aexit__.  A finished caller does
nothing. -/
def stepWriter (held : List Nat) (w : WriterTask) : List Nat × WriterTask :=
  match w.pc with
  | .start =>
    if w.lock_id ∈ held then (held, w)
    else (w.lock_id :: held, { w with pc := .inFlight })
  | .inFlight => (held.erase w.lock_id, { w with pc := .done })
  | .done => (held, w)

/-- Scheduler step: advance caller 0 (`false`) or caller 1 (`true`). -/
def LockSys.step (s : LockSys) (i : Bool) : LockSys :=
  match i with
  | true =>
    let r := stepWriter s.held s.w1
    { s with held := r.1, w1 := r.2 }
  | false =>
    let r := stepWriter s.held s.w0
    { s with held := r.1, w0 := r.2 }

/-- Run a schedule of cooperative steps. -/
def LockSys.run (s : LockSys) (sched : List Bool) : LockSys :=
  sched.foldl LockSys.step s

/-- Both callers' write sequences are in flight at the same time. -/
def bothInFlight (s : LockSys) : Prop :=
  s.w0.pc = .inFlight ∧ s.w1.pc = .inFlight

instance (s : LockSys) : Decidable (bothInFlight s) :=
  inferInstanceAs (Decidable (_ ∧ _))

/-- Mutual-exclusion invariant for two callers sharing one lock: an
in-flight caller holds its lock, and two in-flight callers never share a
lock. -/
def lockInv (s : LockSys) : Prop :=
  (s.w0.pc = .inFlight → s.w0.lock_id ∈ s.held) ∧
    (s.w1.pc = .inFlight → s.w1.lock_id ∈ s.held) ∧
    (s.w0.lock_id = s.w1.lock_id →
      ¬(s.w0.pc = .inFlight ∧ s.w1.pc = .inFlight))

/-- The mutual-exclusion invariant is preserved by every scheduler step.
Lock ids never change; acquisition is blocked while the id is held. -/
theorem lockInv_step (s : LockSys) (i : Bool) (h : lockInv s) :
    lockInv (s.step i) := by
  obtain ⟨⟨l0, t0, p0⟩, ⟨l1, t1, p1⟩, held⟩ := s
  obtain ⟨h0, h1, hx⟩ := h
  simp only [lockInv] at h0 h1 hx ⊢
  cases i
  · cases p0
    · by_cases hmem : l0 ∈ held
      · simp only [LockSys.step, stepWriter, hmem, if_true]
        exact ⟨fun _ => trivial, h1, hx⟩
      · simp only [LockSys.step, stepWriter, hmem, if_false]
        refine ⟨fun _ => List.mem_cons_self _ _,
          fun hf => List.mem_cons_of_mem _ (h1 hf), fun he hb => ?_⟩
        exact hmem (he ▸ h1 hb.2)
    · simp only [LockSys.step, stepWriter]
      refine ⟨by simp, fun hf => ?_, by simp⟩
      have hne : l1 ≠ l0 := fun he => hx he.symm ⟨rfl, hf⟩
      exact (List.mem_erase_of_ne hne).mpr (h1 hf)
    · simp only [LockSys.step, stepWriter]
      exact ⟨by simp, h1, by simp⟩
  · cases p1
    · by_cases hmem : l1 ∈ held
      · simp only [LockSys.step, stepWriter, hmem, if_true]
        exact ⟨h0, fun _ => trivial, hx⟩
      · simp only [LockSys.step, stepWriter, hmem, if_false]
        refine ⟨fun hf => List.mem_cons_of_mem _ (h0 hf),
          fun _ => List.mem_cons_self _ _, fun he hb => ?_⟩
        exact hmem (he ▸ h0 hb.1)
    · simp only [LockSys.step, stepWriter]
      refine ⟨fun hf => ?_, by simp, by simp⟩
      have hne : l0 ≠ l1 := fun he => hx he ⟨hf, rfl⟩
      exact (List.mem_erase_of_ne hne).mpr (h0 hf)
    · simp only [LockSys.step, stepWriter]
      exact ⟨h0, by simp, by simp⟩

/-- Finding in a filtered list equals finding in the list when the search
predicate entails the filter predicate. -/
theorem find?_filter_of_imp {α} (l : List α) (p q : α → Bool)
    (h : ∀ e, p e = true → q e = true) :
    (l.filter q).find? p = l.find? p := by
  induction l with
  | nil => rfl
  | cons a l ih =>
    by_cases hq : q a = true
    · rw [List.filter_cons_of_pos hq]
      by_cases hp : p a = true
      · rw [List.find?_cons_of_pos _ hp, List.find?_cons_of_pos _ hp]
      · rw [List.find?_cons_of_neg _ (by simpa using hp),
          List.find?_cons_of_neg _ (by simpa using hp), ih]
    · rw [List.filter_cons_of_neg (by simpa using hq)]
      have hp : ¬ p a = true := fun hpa => hq (h a hpa)
      rw [List.find?_cons_of_neg _ (by simpa using hp), ih]

/-- Writing file `n` makes its content `c`. -/
theorem FS.lookup_write_self (st : FS) (n : FName) (c : Bytes) :
    (st.write n c).lookup n = some c := by
  simp [FS.write, FS.lookup]

/-- Writing file `n` leaves every other file's content unchanged. -/
theorem FS.lookup_write_ne (st : FS) {m n : FName} (c : Bytes) (h : m ≠ n) :
    (st.write n c).lookup m = st.lookup m := by
  unfold FS.write FS.lookup
  rw [List.find?_cons_of_neg _ (by simpa using fun he => (h he.symm).elim)]
  rw [find?_filter_of_imp]
  intro e hp
  simp only [decide_eq_true_eq] at hp
  simpa [hp] using h

/-- Deleting file `n` leaves every other file's content unchanged. -/
theorem FS.lookup_del_ne (st : FS) {m n : FName} (h : m ≠ n) :
    (st.del n).lookup m = st.lookup m := by
  unfold FS.del FS.lookup
  rw [find?_filter_of_imp]
  intro e hp
  simp only [decide_eq_true_eq] at hp
  simpa [hp] using h

/-- After renaming `src` to `dst`, the destination holds the source's
former content. -/
theorem FS.lookup_rename_dst (st : FS) {src dst : FName} {c : Bytes}
    (h : st.lookup src = some c) :
    (st.rename src dst).lookup dst = some c := by
  unfold FS.lookup at h
  unfold FS.rename
  cases hf : st.files.find? (fun e => e.name = src) with
  | none => rw [hf] at h; exact absurd h (by simp)
  | some e =>
    rw [hf] at h
    simp only [Option.some.injEq] at h
    unfold FS.lookup
    simp [h]

/-- Renaming `src` onto `dst` leaves every third file unchanged. -/
theorem FS.lookup_rename_ne (st : FS) {m src dst : FName}
    (h1 : m ≠ src) (h2 : m ≠ dst) :
    (st.rename src dst).lookup m = st.lookup m := by
  unfold FS.rename
  cases hf : st.files.find? (fun e => e.name = src) with
  | none => rfl
  | some e =>
    unfold FS.lookup
    rw [List.find?_cons_of_neg _ (by simpa using fun he => (h2 he.symm).elim)]
    rw [find?_filter_of_imp, find?_filter_of_imp]
    · intro f hp
      simp only [decide_eq_true_eq] at hp
      simpa [hp] using h1
    · intro f hp
      simp only [decide_eq_true_eq] at hp
      simpa [hp] using h2

/-- After renaming, the source entry is gone. -/
theorem FS.lookup_rename_src (st : FS) {src dst : FName}
    (hne : dst ≠ src) (h : (st.lookup src).isSome) :
    (st.rename src dst).lookup src = none := by
  unfold FS.lookup at h
  unfold FS.rename
  cases hf : st.files.find? (fun e => e.name = src) with
  | none => rw [hf] at h; simp at h
  | some e =>
    unfold FS.lookup
    rw [List.find?_cons_of_neg _ (by simpa using hne)]
    have : ((st.files.filter (fun f => f.name ≠ src)).filter
        (fun f => f.name ≠ dst)).find? (fun e => e.name = src) = none := by
      rw [List.find?_eq_none]
      intro x hx
      have hx1 := List.of_mem_filter (List.mem_of_mem_filter hx)
      simp only [ne_eq, decide_not, Bool.not_eq_true', decide_eq_false_iff_not] at hx1
      simpa using hx1
    rw [this]

/-- The deletion loop leaves every name outside its worklist unchanged. -/
theorem lookup_unlinkLoop_of_not_mem (o : Oracle) (st : FS) {m : FName}
    (ns : List FName) (h : m ∉ ns) :
    (unlinkLoop o st ns).lookup m = st.lookup m := by
  induction ns generalizing st with
  | nil => rfl
  | cons n rest ih =>
    unfold unlinkLoop
    by_cases hu : o.unlink_fails n = true
    · simp [hu]
    · simp only [hu, if_false, Bool.false_eq_true]
      rw [ih (st.del n) (fun hm => h (List.mem_cons_of_mem _ hm)),
        FS.lookup_del_ne st (fun he : m = n => h (by rw [he]; exact List.mem_cons_self _ _))]

/-- Retention pruning only deletes names matching the backup glob, so any
non-matching file is untouched by it. -/
theorem lookup_cleanup_of_not_matches (o : Oracle) (bm : BackupManager)
    (st : FS) {stem ext m : FName} (h : matchesBackup stem ext m = false) :
    (cleanup_old_backups o bm st stem ext).lookup m = st.lookup m := by
  unfold cleanup_old_backups
  by_cases hle :
      (st.files.filter (fun e => matchesBackup stem ext e.name)).length ≤
        bm.retention_count
  · simp [hle]
  · simp only [hle, if_false]
    apply lookup_unlinkLoop_of_not_mem
    intro hm
    obtain ⟨e, he, hname⟩ := List.mem_map.mp hm
    have he1 : e ∈ List.insertionSort mtimeDesc
        (st.files.filter (fun e => matchesBackup stem ext e.name)) :=
      List.mem_of_mem_drop he
    have he2 := (List.mem_insertionSort mtimeDesc).mp he1
    have := List.of_mem_filter he2
    rw [hname] at this
    rw [h] at this
    exact absurd this (by simp)

/-- create_backup never touches any file that does not match the backup
glob: the fresh snapshot name matches the glob, and pruning only deletes
glob matches.  In particular the target and any staged file are
untouched. -/
theorem lookup_create_backup_of_not_matches (o : Oracle) (bm : BackupManager)
    (st : FS) {stem ext m : FName} (h : matchesBackup stem ext m = false) :
    ((create_backup o bm st stem ext).2).lookup m = st.lookup m := by
  unfold create_backup
  by_cases he : bm.enable_backup = true
  · simp only [he, not_true, if_false, Bool.not_true]
    cases hl : st.lookup (targetName stem ext) with
    | none => simp
    | some content =>
      by_cases hc : o.backup_copy_fails = true
      · simp [hc]
      · simp only [hc, if_false, Bool.false_eq_true]
        rw [lookup_cleanup_of_not_matches o bm _ h]
        apply FS.lookup_write_ne
        intro hm
        rw [matchesBackup_iff.mpr ⟨_, hm⟩] at h
        exact absurd h (by simp)
  · simp only [Bool.not_eq_true] at he
    simp [he]

/-- The backup step of write_atomic (step 4) never changes any file that
does not match the backup glob — in particular neither the target nor the
staged file. -/
theorem lookup_backup_step (o : Oracle) (b : BackupManager) (st1 : FS)
    (stem ext : FName) {m : FName} (h : matchesBackup stem ext m = false) :
    (if (st1.lookup (targetName stem ext)).isSome then
        (create_backup o b st1 stem ext).2
      else st1).lookup m = st1.lookup m := by
  by_cases ht : (st1.lookup (targetName stem ext)).isSome
  · simp only [ht, if_true]
    exact lookup_create_backup_of_not_matches o b st1 h
  · simp [ht]

/-- When write_atomic reports failure the target file is exactly as it was
before the call: every branch that returns false stops before the atomic
replace, and neither staging nor the backup step touches the target. -/
theorem write_atomic_target_unchanged_of_false (o : Oracle)
    (bm : Option BackupManager) (st : FS) (stem ext : FName) (data : Bytes)
    (vf : Option (Bytes → Option Bool))
    (h : (write_atomic o bm st stem ext data vf).1 = false) :
    ((write_atomic o bm st stem ext data vf).2.1).lookup (targetName stem ext)
      = st.lookup (targetName stem ext) := by
  have hTne : ∀ ts : FName, targetName stem ext ≠ tempName stem ts ext :=
    fun ts => targetName_ne_tempName stem ts ext
  by_cases h1 : o.mkdir_fails = true
  · simp [write_atomic, h1]
  by_cases h2 : o.temp_open_fails = true
  · simp [write_atomic, h1, h2]
  by_cases h3 : o.temp_write_fails = true
  · simp only [write_atomic, h1, h2, h3, Bool.false_eq_true, if_false, if_true]
    exact FS.lookup_write_ne st _ (hTne _)
  · -- staging succeeded; analyse the validator and the replace step
    have hst1 : (FS.write st (tempName stem (toString st.clock).data ext)
        data).lookup (targetName stem ext) = st.lookup (targetName stem ext) :=
      FS.lookup_write_ne st _ (hTne _)
    by_cases h4 : o.replace_fails = true
    · cases vf with
      | none =>
        simp only [write_atomic, h1, h2, h3, h4, Bool.false_eq_true, if_false,
          if_true] at h ⊢
        cases bm with
        | none => exact hst1
        | some b =>
          rw [lookup_backup_step o b _ stem ext
            (target_not_matchesBackup stem ext)]
          exact hst1
      | some f =>
        cases hf : f data with
        | none =>
          simp only [write_atomic, h1, h2, h3, h4, hf, Bool.false_eq_true,
            if_false, if_true]
          exact hst1
        | some v =>
          cases v with
          | false =>
            simp only [write_atomic, h1, h2, h3, h4, hf, Bool.false_eq_true,
              if_false, if_true]
            exact hst1
          | true =>
            simp only [write_atomic, h1, h2, h3, h4, hf, Bool.false_eq_true,
              if_false, if_true] at h ⊢
            cases bm with
            | none => exact hst1
            | some b =>
              rw [lookup_backup_step o b _ stem ext
                (target_not_matchesBackup stem ext)]
              exact hst1
    · -- no failure remains: the call can only return false through the
      -- validator, in which case it stops before backup and replace
      cases vf with
      | none =>
        simp [write_atomic, h1, h2, h3, h4] at h
      | some f =>
        cases hf : f data with
        | none =>
          simp only [write_atomic, h1, h2, h3, h4, hf, Bool.false_eq_true,
            if_false, if_true]
          exact hst1
        | some v =>
          cases v with
          | false =>
            simp only [write_atomic, h1, h2, h3, h4, hf, Bool.false_eq_true,
              if_false, if_true]
            exact hst1
          | true =>
            simp [write_atomic, h1, h2, h3, h4, hf] at h

/-- When write_atomic reports success the target file holds exactly the
written data: the staged file holds `data`, the backup step does not touch
it, and the atomic replace moves it onto the target. -/
theorem write_atomic_target_of_true (o : Oracle)
    (bm : Option BackupManager) (st : FS) (stem ext : FName) (data : Bytes)
    (vf : Option (Bytes → Option Bool))
    (h : (write_atomic o bm st stem ext data vf).1 = true) :
    ((write_atomic o bm st stem ext data vf).2.1).lookup (targetName stem ext)
      = some data := by
  by_cases h1 : o.mkdir_fails = true
  · simp [write_atomic, h1] at h
  by_cases h2 : o.temp_open_fails = true
  · simp [write_atomic, h1, h2] at h
  by_cases h3 : o.temp_write_fails = true
  · simp [write_atomic, h1, h2, h3] at h
  by_cases h4 : o.replace_fails = true
  · -- replace raises: no branch returns true
    cases vf with
    | none => simp [write_atomic, h1, h2, h3, h4] at h
    | some f =>
      cases hf : f data with
      | none => simp [write_atomic, h1, h2, h3, h4, hf] at h
      | some v =>
        cases v with
        | false => simp [write_atomic, h1, h2, h3, h4, hf] at h
        | true => simp [write_atomic, h1, h2, h3, h4, hf] at h
  · -- the successful replace branch
    have key : ∀ st2 : FS,
        st2.lookup (tempName stem (toString st.clock).data ext) = some data →
        (st2.rename (tempName stem (toString st.clock).data ext)
            (targetName stem ext)).lookup (targetName stem ext) = some data :=
      fun st2 hl => FS.lookup_rename_dst st2 hl
    have hst1 : (FS.write st (tempName stem (toString st.clock).data ext)
        data).lookup (tempName stem (toString st.clock).data ext) =
        some data := FS.lookup_write_self st _ data
    cases vf with
    | none =>
      cases bm with
      | none =>
        simp only [write_atomic, h1, h2, h3, h4, Bool.false_eq_true, if_false,
          if_true]
        exact key _ hst1
      | some b =>
        simp only [write_atomic, h1, h2, h3, h4, Bool.false_eq_true, if_false,
          if_true]
        apply key
        rw [lookup_backup_step o b _ stem ext
          (temp_not_matchesBackup stem (toString st.clock).data ext)]
        exact hst1
    | some f =>
      cases hf : f data with
      | none => simp [write_atomic, h1, h2, h3, h4, hf] at h
      | some v =>
        cases v with
        | false => simp [write_atomic, h1, h2, h3, h4, hf] at h
        | true =>
          cases bm with
          | none =>
            simp only [write_atomic, h1, h2, h3, h4, hf, Bool.false_eq_true,
              if_false, if_true]
            exact key _ hst1
          | some b =>
            simp only [write_atomic, h1, h2, h3, h4, hf, Bool.false_eq_true,
              if_false, if_true]
            apply key
            rw [lookup_backup_step o b _ stem ext
              (temp_not_matchesBackup stem (toString st.clock).data ext)]
            exact hst1

/-- Every failure injected into staging, validation or replace makes
write_atomic report failure (the exception is caught and turned into
`False`); a validator that returns false or raises does the same. -/
theorem write_atomic_false_of_failure (o : Oracle)
    (bm : Option BackupManager) (st : FS) (stem ext : FName) (data : Bytes)
    (vf : Option (Bytes → Option Bool))
    (h : o.mkdir_fails = true ∨ o.temp_open_fails = true ∨
      o.temp_write_fails = true ∨ o.replace_fails = true ∨
      (∃ f, vf = some f ∧ f data ≠ some true)) :
    (write_atomic o bm st stem ext data vf).1 = false := by
  by_cases h1 : o.mkdir_fails = true
  · simp [write_atomic, h1]
  by_cases h2 : o.temp_open_fails = true
  · simp [write_atomic, h1, h2]
  by_cases h3 : o.temp_write_fails = true
  · simp [write_atomic, h1, h2, h3]
  by_cases h4 : o.replace_fails = true
  · cases vf with
    | none => simp [write_atomic, h1, h2, h3, h4]
    | some f =>
      cases hf : f data with
      | none => simp [write_atomic, h1, h2, h3, h4, hf]
      | some v =>
        cases v with
        | false => simp [write_atomic, h1, h2, h3, h4, hf]
        | true => simp [write_atomic, h1, h2, h3, h4, hf]
  · rcases h with h | h | h | h | ⟨f, rfl, hne⟩
    · exact absurd h h1
    · exact absurd h h2
    · exact absurd h h3
    · exact absurd h h4
    cases hf : f data with
    | none => simp [write_atomic, h1, h2, h3, h4, hf]
    | some v =>
      cases v with
      | false => simp [write_atomic, h1, h2, h3, h4, hf]
      | true => exact absurd hf hne

/-- Claim C1, amended.  After any write_atomic call the target holds
either its complete pre-call content (or absence) or the complete new
data — never a mixture.  On any exception raised during staging,
validation, or replace the call returns failure and the target is
unmodified.  An exception during the backup step is caught inside
create_backup and does not abort the write, so the call can still succeed
and replace the target (hence backup is excluded from the failure list). -/
theorem write_atomic_atomicity (o : Oracle) (bm : Option BackupManager)
    (st : FS) (stem ext : FName) (data : Bytes)
    (vf : Option (Bytes → Option Bool)) :
    (((write_atomic o bm st stem ext data vf).2.1).lookup (targetName stem ext)
        = st.lookup (targetName stem ext) ∨
      ((write_atomic o bm st stem ext data vf).2.1).lookup (targetName stem ext)
        = some data) ∧
    ((write_atomic o bm st stem ext data vf).1 = false →
      ((write_atomic o bm st stem ext data vf).2.1).lookup (targetName stem ext)
        = st.lookup (targetName stem ext)) ∧
    ((o.mkdir_fails = true ∨ o.temp_open_fails = true ∨
        o.temp_write_fails = true ∨ o.replace_fails = true ∨
        (∃ f, vf = some f ∧ f data ≠ some true)) →
      (write_atomic o bm st stem ext data vf).1 = false) := by
  refine ⟨?_, write_atomic_target_unchanged_of_false o bm st stem ext data vf,
    write_atomic_false_of_failure o bm st stem ext data vf⟩
  cases hr : (write_atomic o bm st stem ext data vf).1 with
  | true => exact Or.inr (write_atomic_target_of_true o bm st stem ext data vf hr)
  | false =>
    exact Or.inl (write_atomic_target_unchanged_of_false o bm st stem ext data vf hr)

/-- Witness for the amended claim C1 at a concrete input: with a failing
replace the call reports failure and an existing target keeps its old
content. -/
theorem write_atomic_atomicity_witness :
    (write_atomic { Oracle.ok with replace_fails := true } none
        ⟨[⟨"c.j".data, 0, [7]⟩], 1⟩ "c".data ".j".data [9] none).1 = false ∧
    ((write_atomic { Oracle.ok with replace_fails := true } none
        ⟨[⟨"c.j".data, 0, [7]⟩], 1⟩ "c".data ".j".data [9] none).2.1).lookup
      (targetName "c".data ".j".data) =
      (⟨[⟨"c.j".data, 0, [7]⟩], 1⟩ : FS).lookup (targetName "c".data ".j".data) := by
  have h := write_atomic_atomicity { Oracle.ok with replace_fails := true }
    none ⟨[⟨"c.j".data, 0, [7]⟩], 1⟩ "c".data ".j".data [9] none
  have hfalse := h.2.2 (Or.inr (Or.inr (Or.inr (Or.inl rfl))))
  exact ⟨hfalse, h.2.1 hfalse⟩

/-- Claim C1 counterexample.  An exception raised during the backup step
(the copy inside create_backup fails) does not make write_atomic return a
failure result with the target unmodified: the exception is swallowed, the
write proceeds, the call returns success and the target now holds the new
content, different from its pre-call content. -/
theorem backup_exception_write_succeeds_counterexample :
    (write_atomic { Oracle.ok with backup_copy_fails := true }
        (some ⟨3, true⟩) ⟨[⟨"c.j".data, 0, [7]⟩], 1⟩
        "c".data ".j".data [9] none).1 = true ∧
    ((write_atomic { Oracle.ok with backup_copy_fails := true }
        (some ⟨3, true⟩) ⟨[⟨"c.j".data, 0, [7]⟩], 1⟩
        "c".data ".j".data [9] none).2.1).lookup
      (targetName "c".data ".j".data) = some [9] ∧
    (⟨[⟨"c.j".data, 0, [7]⟩], 1⟩ : FS).lookup (targetName "c".data ".j".data)
      = some [7] := by
  refine ⟨?_, ?_, ?_⟩ <;> decide

/-- Claim C2.  Whenever the supplied validate_func returns false on the
staged content, the call reports failure and the target file is never
touched: it keeps exactly its pre-call content, or still does not exist
if it did not exist before the call. -/
theorem validation_failure_leaves_target_untouched (o : Oracle)
    (bm : Option BackupManager) (st : FS) (stem ext : FName) (data : Bytes)
    (f : Bytes → Option Bool) (h : f data = some false) :
    (write_atomic o bm st stem ext data (some f)).1 = false ∧
    ((write_atomic o bm st stem ext data (some f)).2.1).lookup
        (targetName stem ext) = st.lookup (targetName stem ext) := by
  have hfalse := write_atomic_false_of_failure o bm st stem ext data (some f)
    (Or.inr (Or.inr (Or.inr (Or.inr ⟨f, rfl, by rw [h]; simp⟩))))
  exact ⟨hfalse,
    write_atomic_target_unchanged_of_false o bm st stem ext data (some f) hfalse⟩

/-- Witness for claim C2 at a concrete input: an always-false validator on
a fresh target leaves the target non-existent and returns failure. -/
theorem validation_failure_leaves_target_untouched_witness :
    (write_atomic Oracle.ok none ⟨[], 0⟩ "c".data ".j".data [9]
        (some (fun _ => some false))).1 = false ∧
    ((write_atomic Oracle.ok none ⟨[], 0⟩ "c".data ".j".data [9]
        (some (fun _ => some false))).2.1).lookup (targetName "c".data ".j".data)
      = (⟨[], 0⟩ : FS).lookup (targetName "c".data ".j".data) :=
  validation_failure_leaves_target_untouched Oracle.ok none ⟨[], 0⟩
    "c".data ".j".data [9] (fun _ => some false) rfl

/-- The mutual-exclusion invariant is preserved by whole schedules. -/
theorem lockInv_run (sched : List Bool) (s : LockSys) (h : lockInv s) :
    lockInv (LockSys.run s sched) := by
  induction sched generalizing s with
  | nil => exact h
  | cons i rest ih => exact ih (s.step i) (lockInv_step s i h)

/-- Scheduler steps never change which lock a caller uses. -/
theorem run_preserves_lock_ids (sched : List Bool) (s : LockSys) :
    (LockSys.run s sched).w0.lock_id = s.w0.lock_id ∧
      (LockSys.run s sched).w1.lock_id = s.w1.lock_id := by
  induction sched generalizing s with
  | nil => exact ⟨rfl, rfl⟩
  | cons i rest ih =>
    refine ⟨((ih (s.step i)).1).trans ?_, ((ih (s.step i)).2).trans ?_⟩
    · cases i <;> simp only [LockSys.step] <;>
        cases hp : s.w0.pc <;> simp [stepWriter, hp] <;> split <;> rfl
    · cases i <;> simp only [LockSys.step] <;>
        cases hp : s.w1.pc <;> simp [stepWriter, hp] <;> split <;> rfl

/-- Claim C7, amended.  Serialization holds per writer instance, not per
path: two concurrent write calls that go through the same
AtomicFileWriter instance share that instance's asyncio.Lock, and then no
cooperative schedule can have both write sequences in flight at once —
the second begins only after the first completes and releases the lock. -/
theorem same_instance_writes_serialize (L : Nat) (t0 t1 : FName)
    (sched : List Bool) :
    ¬ bothInFlight
      (LockSys.run ⟨⟨L, t0, .start⟩, ⟨L, t1, .start⟩, []⟩ sched) := by
  intro hb
  have hinv : lockInv (⟨⟨L, t0, .start⟩, ⟨L, t1, .start⟩, []⟩ : LockSys) :=
    ⟨by simp, by simp, fun _ hc => by simp at hc⟩
  have hrun := lockInv_run sched _ hinv
  have hids := run_preserves_lock_ids sched
    ⟨⟨L, t0, .start⟩, ⟨L, t1, .start⟩, []⟩
  exact hrun.2.2 (hids.1.trans hids.2.symm) hb

/-- Claim C7 counterexample.  Two write calls through distinct
AtomicFileWriter instances targeting the same path hold distinct locks
(__init__ creates a fresh asyncio.Lock per instance), and the cooperative
schedule that lets each acquire its own lock puts both write sequences in
flight at the same time — the second caller's sequence begins before the
first completes. -/
theorem distinct_instances_both_in_flight_counterexample :
    bothInFlight
      (LockSys.run ⟨⟨0, "c.j".data, .start⟩, ⟨1, "c.j".data, .start⟩, []⟩
        [false, true]) ∧
    ("c.j".data : FName) = "c.j".data ∧ (0 : Nat) ≠ 1 := by
  refine ⟨?_, rfl, by decide⟩
  constructor <;> rfl

/-- No file of the directory matches the staging pattern of the target. -/
def noTempIn (stem ext : FName) (st : FS) : Prop :=
  ∀ e ∈ st.files, matchesTemp stem ext e.name = false

/-- Every staging-pattern file of the directory is the single staged file
`tp` of the running write attempt. -/
def tempOnly (stem ext tp : FName) (st : FS) : Prop :=
  ∀ e ∈ st.files, e.name = tp ∨ matchesTemp stem ext e.name = false

theorem tempOnly_of_noTempIn {stem ext tp : FName} {st : FS}
    (h : noTempIn stem ext st) : tempOnly stem ext tp st :=
  fun e he => Or.inr (h e he)

theorem tempOnly_write_self {stem ext tp : FName} {st : FS} (c : Bytes)
    (h : tempOnly stem ext tp st) : tempOnly stem ext tp (st.write tp c) := by
  intro e he
  rcases List.mem_cons.mp he with rfl | he1
  · exact Or.inl rfl
  · exact h e (List.mem_of_mem_filter he1)

theorem tempOnly_write_other {stem ext tp n : FName} {st : FS} (c : Bytes)
    (hn : matchesTemp stem ext n = false) (h : tempOnly stem ext tp st) :
    tempOnly stem ext tp (st.write n c) := by
  intro e he
  rcases List.mem_cons.mp he with rfl | he1
  · exact Or.inr hn
  · exact h e (List.mem_of_mem_filter he1)

theorem tempOnly_del {stem ext tp n : FName} {st : FS}
    (h : tempOnly stem ext tp st) : tempOnly stem ext tp (st.del n) :=
  fun e he => h e (List.mem_of_mem_filter he)

theorem tempOnly_unlinkLoop {stem ext tp : FName} (o : Oracle) {st : FS}
    (ns : List FName) (h : tempOnly stem ext tp st) :
    tempOnly stem ext tp (unlinkLoop o st ns) := by
  induction ns generalizing st with
  | nil => exact h
  | cons n rest ih =>
    unfold unlinkLoop
    by_cases hu : o.unlink_fails n = true
    · simpa [hu] using h
    · simpa [hu] using ih (tempOnly_del h)

theorem tempOnly_cleanup {stem ext tp : FName} (o : Oracle)
    (bm : BackupManager) {st : FS} (stem2 ext2 : FName)
    (h : tempOnly stem ext tp st) :
    tempOnly stem ext tp (cleanup_old_backups o bm st stem2 ext2) := by
  unfold cleanup_old_backups
  by_cases hle : (st.files.filter
      (fun e => matchesBackup stem2 ext2 e.name)).length ≤ bm.retention_count
  · simpa [hle] using h
  · simp only [hle, if_false]
    exact tempOnly_unlinkLoop o _ h

theorem tempOnly_create_backup {stem ext tp : FName} (o : Oracle)
    (bm : BackupManager) {st : FS}
    (h : tempOnly stem ext tp st) :
    tempOnly stem ext tp ((create_backup o bm st stem ext).2) := by
  unfold create_backup
  by_cases he : bm.enable_backup = true
  · simp only [he, Bool.not_true, if_false]
    cases hl : st.lookup (targetName stem ext) with
    | none => simpa using h
    | some content =>
      by_cases hc : o.backup_copy_fails = true
      · simpa [hc] using h
      · simp only [hc, if_false, Bool.false_eq_true]
        exact tempOnly_cleanup o bm stem ext
          (tempOnly_write_other content
            (backup_not_matchesTemp stem (toString st.clock).data ext) h)
  · simp only [Bool.not_eq_true] at he
    simpa [he] using h

theorem noTempIn_del_temp {stem ext tp : FName} {st : FS}
    (h : tempOnly stem ext tp st) : noTempIn stem ext (st.del tp) := by
  intro e he
  have h1 := List.of_mem_filter he
  simp only [ne_eq, decide_not, Bool.not_eq_true', decide_eq_false_iff_not] at h1
  rcases h e (List.mem_of_mem_filter he) with he1 | he1
  · exact absurd he1 h1
  · exact he1

/-- Renaming the staged file onto the target removes the only
staging-pattern file: the result contains no staging-pattern file. -/
theorem noTempIn_rename_temp {stem ext tp : FName} {st : FS}
    (h : tempOnly stem ext tp st) :
    noTempIn stem ext (st.rename tp (targetName stem ext)) := by
  unfold FS.rename
  cases hf : st.files.find? (fun e => e.name = tp) with
  | none =>
    intro e he
    rcases h e he with he1 | he1
    · have := List.find?_eq_none.mp hf e he
      simp only [decide_eq_true_eq] at this
      exact absurd he1 this
    · exact he1
  | some f =>
    intro e he
    rcases List.mem_cons.mp he with rfl | he1
    · exact target_not_matchesTemp stem ext
    · have hne := List.of_mem_filter (List.mem_of_mem_filter he1)
      simp only [ne_eq, decide_not, Bool.not_eq_true', decide_eq_false_iff_not] at hne
      rcases h e (List.mem_of_mem_filter (List.mem_of_mem_filter he1)) with he2 | he2
      · exact absurd he2 hne
      · exact he2

/-- A directory with no staging-pattern file has no file named like the
staged file. -/
theorem lookup_temp_none_of_noTempIn {stem ext tp : FName} {st : FS}
    (htp : matchesTemp stem ext tp = true) (h : noTempIn stem ext st) :
    st.lookup tp = none := by
  unfold FS.lookup
  have : st.files.find? (fun e => e.name = tp) = none := by
    rw [List.find?_eq_none]
    intro e he
    simp only [decide_eq_true_eq]
    intro hname
    rw [← hname] at htp
    rw [h e he] at htp
    exact absurd htp (by simp)
  rw [this]

theorem noTempIn_aexit {stem ext : FName} (o : Oracle) {st : FS}
    (tp : Option FName) (h : noTempIn stem ext st) :
    noTempIn stem ext (aexit_cleanup o st tp) := by
  unfold aexit_cleanup
  cases tp with
  | none => exact h
  | some t =>
    by_cases hs : (st.lookup t).isSome
    · by_cases hu : o.unlink_fails t = true
      · simpa [hs, hu] using h
      · simp only [hs, hu, if_true, if_false, Bool.false_eq_true]
        exact fun e he => h e (List.mem_of_mem_filter he)
    · simpa [hs] using h

/-- Claim C8, amended.  Consider a full context-managed write attempt
(`async with AtomicFileWriter(...)` around one write_atomic call) whose
best-effort cleanup deletions succeed, on a directory holding no
staging-pattern file.  After the context exits, no file matching the
staging pattern `.{stem}_{timestamp}_tmp{ext}` remains: the staged file is
consumed by the successful replace or deleted by __aexit__ on every
failure path.  (Between write_atomic's return and the context exit a
staged file does remain on failure paths — the cleanup lives in
__aexit__, not in write_atomic itself.) -/
theorem writer_session_no_staged_file (o : Oracle) (bm : Option BackupManager)
    (st : FS) (stem ext : FName) (data : Bytes)
    (vf : Option (Bytes → Option Bool))
    (hpre : noTempIn stem ext st)
    (hunlink : ∀ n, o.unlink_fails n = false) :
    noTempIn stem ext (writer_session o bm st stem ext data vf).2 := by
  have htpM : matchesTemp stem ext (tempName stem (toString st.clock).data ext)
      = true := tempName_matchesTemp stem (toString st.clock).data ext
  have hbase : tempOnly stem ext (tempName stem (toString st.clock).data ext) st :=
    tempOnly_of_noTempIn hpre
  unfold writer_session
  by_cases h1 : o.mkdir_fails = true
  · simp only [write_atomic, h1, if_true]
    exact noTempIn_aexit o none hpre
  by_cases h2 : o.temp_open_fails = true
  · simp only [write_atomic, h1, h2, Bool.false_eq_true, if_false, if_true]
    exact noTempIn_aexit o _ hpre
  by_cases h3 : o.temp_write_fails = true
  · simp only [write_atomic, h1, h2, h3, Bool.false_eq_true, if_false, if_true]
    simp only [aexit_cleanup, FS.lookup_write_self, hunlink, Option.isSome_some,
      if_true, Bool.false_eq_true, if_false]
    exact noTempIn_del_temp (tempOnly_write_self _ hbase)
  · -- staging succeeded
    have hst1 : tempOnly stem ext (tempName stem (toString st.clock).data ext)
        (st.write (tempName stem (toString st.clock).data ext) data) :=
      tempOnly_write_self _ hbase
    have hfailCleanup : ∀ st1 : FS,
        st1.lookup (tempName stem (toString st.clock).data ext) = some data →
        tempOnly stem ext (tempName stem (toString st.clock).data ext) st1 →
        noTempIn stem ext (aexit_cleanup o st1
          (some (tempName stem (toString st.clock).data ext))) := by
      intro st1 hl ho
      simp only [aexit_cleanup, hl, hunlink, Option.isSome_some, if_true,
        Bool.false_eq_true, if_false]
      exact noTempIn_del_temp ho
    have hbackup : ∀ b : BackupManager,
        tempOnly stem ext (tempName stem (toString st.clock).data ext)
          (if ((st.write (tempName stem (toString st.clock).data ext)
              data).lookup (targetName stem ext)).isSome then
            (create_backup o b
              (st.write (tempName stem (toString st.clock).data ext) data)
              stem ext).2
          else st.write (tempName stem (toString st.clock).data ext) data) := by
      intro b
      by_cases ht : ((st.write (tempName stem (toString st.clock).data ext)
          data).lookup (targetName stem ext)).isSome
      · simp only [ht, if_true]
        exact tempOnly_create_backup o b hst1
      · simpa [ht] using hst1
    by_cases h4 : o.replace_fails = true
    · cases vf with
      | none =>
        cases bm with
        | none =>
          simp only [write_atomic, h1, h2, h3, h4, Bool.false_eq_true,
            if_false, if_true]
          exact hfailCleanup _ (FS.lookup_write_self st _ data) hst1
        | some b =>
          simp only [write_atomic, h1, h2, h3, h4, Bool.false_eq_true,
            if_false, if_true]
          refine hfailCleanup _ ?_ (hbackup b)
          rw [lookup_backup_step o b _ stem ext
            (temp_not_matchesBackup stem (toString st.clock).data ext)]
          exact FS.lookup_write_self st _ data
      | some f =>
        cases hf : f data with
        | none =>
          simp only [write_atomic, h1, h2, h3, h4, hf, Bool.false_eq_true,
            if_false, if_true]
          exact hfailCleanup _ (FS.lookup_write_self st _ data) hst1
        | some v =>
          cases v with
          | false =>
            simp only [write_atomic, h1, h2, h3, h4, hf, Bool.false_eq_true,
              if_false, if_true]
            exact hfailCleanup _ (FS.lookup_write_self st _ data) hst1
          | true =>
            cases bm with
            | none =>
              simp only [write_atomic, h1, h2, h3, h4, hf, Bool.false_eq_true,
                if_false, if_true]
              exact hfailCleanup _ (FS.lookup_write_self st _ data) hst1
            | some b =>
              simp only [write_atomic, h1, h2, h3, h4, hf, Bool.false_eq_true,
                if_false, if_true]
              refine hfailCleanup _ ?_ (hbackup b)
              rw [lookup_backup_step o b _ stem ext
                (temp_not_matchesBackup stem (toString st.clock).data ext)]
              exact FS.lookup_write_self st _ data
    · -- replace succeeds: on the success path the staged file is consumed
      have hsucc : ∀ st2 : FS,
          tempOnly stem ext (tempName stem (toString st.clock).data ext) st2 →
          noTempIn stem ext (aexit_cleanup o
            (st2.rename (tempName stem (toString st.clock).data ext)
              (targetName stem ext))
            (some (tempName stem (toString st.clock).data ext))) :=
        fun st2 h2o => noTempIn_aexit o _ (noTempIn_rename_temp h2o)
      cases vf with
      | none =>
        cases bm with
        | none =>
          simp only [write_atomic, h1, h2, h3, h4, Bool.false_eq_true,
            if_false, if_true]
          exact hsucc _ hst1
        | some b =>
          simp only [write_atomic, h1, h2, h3, h4, Bool.false_eq_true,
            if_false, if_true]
          exact hsucc _ (hbackup b)
      | some f =>
        cases hf : f data with
        | none =>
          simp only [write_atomic, h1, h2, h3, h4, hf, Bool.false_eq_true,
            if_false, if_true]
          exact hfailCleanup _ (FS.lookup_write_self st _ data) hst1
        | some v =>
          cases v with
          | false =>
            simp only [write_atomic, h1, h2, h3, h4, hf, Bool.false_eq_true,
              if_false, if_true]
            exact hfailCleanup _ (FS.lookup_write_self st _ data) hst1
          | true =>
            cases bm with
            | none =>
              simp only [write_atomic, h1, h2, h3, h4, hf, Bool.false_eq_true,
                if_false, if_true]
              exact hsucc _ hst1
            | some b =>
              simp only [write_atomic, h1, h2, h3, h4, hf, Bool.false_eq_true,
                if_false, if_true]
              exact hsucc _ (hbackup b)

/-- Witness for the amended claim C8 at a concrete input: a validation
failure on an empty directory leaves no staging-pattern file once the
context has exited. -/
theorem writer_session_no_staged_file_witness :
    noTempIn "c".data ".j".data
      (writer_session Oracle.ok none ⟨[], 5⟩ "c".data ".j".data [9]
        (some (fun _ => some false))).2 :=
  writer_session_no_staged_file Oracle.ok none ⟨[], 5⟩ "c".data ".j".data [9]
    (some (fun _ => some false)) (fun e he => absurd he (by simp))
    (fun _ => rfl)

/-- Claim C8 counterexample.  Right after write_atomic returns (failure:
the validator rejected the staged content) the staged file
`.c_5_tmp.j` still exists in the directory and matches the staging
pattern — it is only removed later, by __aexit__, when the writer's
context exits. -/
theorem staged_file_remains_when_write_atomic_returns_counterexample :
    (write_atomic Oracle.ok none ⟨[], 5⟩ "c".data ".j".data [9]
        (some (fun _ => some false))).1 = false ∧
    ((write_atomic Oracle.ok none ⟨[], 5⟩ "c".data ".j".data [9]
        (some (fun _ => some false))).2.1).lookup
      (tempName "c".data (toString 5).data ".j".data) = some [9] ∧
    matchesTemp "c".data ".j".data
      (tempName "c".data (toString 5).data ".j".data) = true := by
  exact ⟨rfl, by decide, by decide⟩

/-- Characterisation of the isinstance check: a value passes iff it is a
string, an integer, or a boolean (Python bools are ints). -/
theorem isStrOrInt_iff (v : JValue) :
    isStrOrInt v = true ↔
      (∃ s, v = JValue.jstr s) ∨ (∃ i, v = JValue.jint i) ∨
        (∃ b, v = JValue.jbool b) := by
  cases v <;> simp [isStrOrInt]

/-- Characterisation of the per-record check: all required keys present
with acceptably typed values. -/
theorem validate_item_iff (fields : List (String × JValue)) :
    validate_item fields = true ↔
      ∀ k ∈ required_fields, ∃ v, lookupKey fields k = some v ∧
        isStrOrInt v = true := by
  unfold validate_item
  rw [Bool.and_eq_true, List.all_eq_true, List.all_eq_true]
  constructor
  · rintro ⟨h1, h2⟩ k hk
    have h3 := h2 k hk
    cases hv : lookupKey fields k with
    | none => rw [hv] at h3; exact absurd h3 (by simp)
    | some v => rw [hv] at h3; exact ⟨v, rfl, h3⟩
  · intro h
    constructor
    · intro k hk
      obtain ⟨v, hv, _⟩ := h k hk
      simp [hv]
    · intro k hk
      obtain ⟨v, hv, ht⟩ := h k hk
      simp [hv, ht]

/-- Characterisation of the structural check: the payload is a list and
every element is a valid record object. -/
theorem validate_cache_structure_iff (data : JValue) :
    validate_cache_structure data = true ↔
      ∃ items, data = JValue.jarr items ∧
        ∀ it ∈ items, ∃ fields, it = JValue.jobj fields ∧
          validate_item fields = true := by
  cases data with
  | jarr items =>
    unfold validate_cache_structure
    constructor
    · intro h
      refine ⟨items, rfl, fun it hit => ?_⟩
      have h1 := List.all_eq_true.mp h it hit
      cases it <;> first
        | exact ⟨_, rfl, h1⟩
        | exact absurd h1 (by simp)
    · rintro ⟨items', heq, h⟩
      cases heq
      rw [List.all_eq_true]
      intro it hit
      obtain ⟨fields, rfl, hv⟩ := h it hit
      exact hv
  | jnull => simp [validate_cache_structure]
  | jbool b => simp [validate_cache_structure]
  | jint n => simp [validate_cache_structure]
  | jfloat => simp [validate_cache_structure]
  | jstr s => simp [validate_cache_structure]
  | jobj fields => simp [validate_cache_structure]

/-- Claim C3.  validate_json_file(path) returns true iff the file exists
with non-zero size, its bytes parse as JSON, the parsed value is a
(possibly empty) list, and every element is a dict containing all five
required keys with string- or integer-typed values (Python booleans,
being a subclass of int, pass the isinstance check).  The definition
performs the checks in exactly that order, each one short-circuiting to
false, so any other file yields false. -/
theorem validate_json_file_iff (parse : Bytes → Option JValue) (st : FS)
    (n : FName) :
    validate_json_file parse st n = true ↔
      ∃ content, st.lookup n = some content ∧ content.length ≠ 0 ∧
        ∃ items, parse content = some (JValue.jarr items) ∧
          ∀ it ∈ items, ∃ fields, it = JValue.jobj fields ∧
            ∀ k ∈ required_fields, ∃ v, lookupKey fields k = some v ∧
              ((∃ s, v = JValue.jstr s) ∨ (∃ i, v = JValue.jint i) ∨
                (∃ b, v = JValue.jbool b)) := by
  unfold validate_json_file
  cases hl : st.lookup n with
  | none =>
    simp only [iff_false_intro]
    constructor
    · intro h; exact absurd h (by simp)
    · rintro ⟨c, hc, -⟩; exact absurd hc (by simp)
  | some content =>
    by_cases hz : content.length = 0
    · simp only [hz, if_true]
      constructor
      · intro h; exact absurd h (by simp)
      · rintro ⟨c, hc, hcz, -⟩
        rw [Option.some.injEq] at hc
        exact absurd (hc ▸ hz) hcz
    · simp only [hz, if_false]
      cases hp : parse content with
      | none =>
        constructor
        · intro h; exact absurd h (by simp)
        · rintro ⟨c, hc, -, items, hpc, -⟩
          rw [Option.some.injEq] at hc
          rw [← hc, hp] at hpc
          exact absurd hpc (by simp)
      | some data =>
        rw [validate_cache_structure_iff]
        constructor
        · rintro ⟨items, rfl, h⟩
          refine ⟨content, rfl, hz, items, hp, fun it hit => ?_⟩
          obtain ⟨fields, rfl, hv⟩ := h it hit
          refine ⟨fields, rfl, fun k hk => ?_⟩
          obtain ⟨v, hkv, htv⟩ := (validate_item_iff fields).mp hv k hk
          exact ⟨v, hkv, (isStrOrInt_iff v).mp htv⟩
        · rintro ⟨c, hc, -, items, hpc, h⟩
          rw [Option.some.injEq] at hc
          rw [← hc, hp, Option.some.injEq] at hpc
          refine ⟨items, hpc, fun it hit => ?_⟩
          obtain ⟨fields, rfl, hv⟩ := h it hit
          refine ⟨fields, rfl, (validate_item_iff fields).mpr fun k hk => ?_⟩
          obtain ⟨v, hkv, htv⟩ := hv k hk
          exact ⟨v, hkv, (isStrOrInt_iff v).mpr htv⟩

/-- Witness for claim C3 at a concrete input: a one-record file validates
to true through the characterisation. -/
theorem validate_json_file_iff_witness :
    validate_json_file
      (fun c => if c = [1] then
        some (JValue.jarr [JValue.jobj
          [("index", JValue.jint 0), ("name", JValue.jstr "n"),
           ("pre_jp", JValue.jstr "a"), ("post_jp", JValue.jstr "b"),
           ("pre_zh", JValue.jstr "c")]])
        else none)
      ⟨[⟨"c.j".data, 0, [1]⟩], 1⟩ "c.j".data = true := by
  rw [validate_json_file_iff]
  refine ⟨[1], by decide, by decide,
    [JValue.jobj
      [("index", JValue.jint 0), ("name", JValue.jstr "n"),
       ("pre_jp", JValue.jstr "a"), ("post_jp", JValue.jstr "b"),
       ("pre_zh", JValue.jstr "c")]], rfl, ?_⟩
  intro it hit
  rw [List.mem_singleton] at hit
  subst hit
  refine ⟨_, rfl, fun k hk => ?_⟩
  simp only [required_fields, List.mem_cons, List.not_mem_nil, or_false] at hk
  rcases hk with rfl | rfl | rfl | rfl | rfl
  · exact ⟨JValue.jint 0, rfl, Or.inr (Or.inl ⟨0, rfl⟩)⟩
  · exact ⟨JValue.jstr "n", rfl, Or.inl ⟨"n", rfl⟩⟩
  · exact ⟨JValue.jstr "a", rfl, Or.inl ⟨"a", rfl⟩⟩
  · exact ⟨JValue.jstr "b", rfl, Or.inl ⟨"b", rfl⟩⟩
  · exact ⟨JValue.jstr "c", rfl, Or.inl ⟨"c", rfl⟩⟩

/-- Claim C10.  Booleans are accepted wherever the record format requires
a string- or integer-typed value: for every list of record objects whose
required keys are all present and whose required values are strings,
integers, or Python booleans, _validate_cache_structure returns true —
because the type check is `isinstance(value, (str, int))` and bool is a
subclass of int. -/
theorem validate_cache_structure_accepts_bools
    (items : List (List (String × JValue)))
    (h : ∀ fields ∈ items, ∀ k ∈ required_fields,
      ∃ v, lookupKey fields k = some v ∧
        ((∃ s, v = JValue.jstr s) ∨ (∃ i, v = JValue.jint i) ∨
          (∃ b, v = JValue.jbool b))) :
    validate_cache_structure (JValue.jarr (items.map JValue.jobj)) = true := by
  rw [validate_cache_structure_iff]
  refine ⟨items.map JValue.jobj, rfl, fun it hit => ?_⟩
  obtain ⟨fields, hf, rfl⟩ := List.mem_map.mp hit
  refine ⟨fields, rfl, (validate_item_iff fields).mpr fun k hk => ?_⟩
  obtain ⟨v, hkv, htv⟩ := h fields hf k hk
  exact ⟨v, hkv, (isStrOrInt_iff v).mpr htv⟩

/-- Witness for claim C10 at a concrete input: a record carrying the
booleans True and False among its required values still validates. -/
theorem validate_cache_structure_accepts_bools_witness :
    validate_cache_structure (JValue.jarr [JValue.jobj
      [("index", JValue.jint 0), ("name", JValue.jbool true),
       ("pre_jp", JValue.jstr "a"), ("post_jp", JValue.jbool false),
       ("pre_zh", JValue.jstr "c")]]) = true := by
  refine validate_cache_structure_accepts_bools
    [[("index", JValue.jint 0), ("name", JValue.jbool true),
      ("pre_jp", JValue.jstr "a"), ("post_jp", JValue.jbool false),
      ("pre_zh", JValue.jstr "c")]] ?_
  intro fields hf k hk
  rw [List.mem_singleton] at hf
  subst hf
  simp only [required_fields, List.mem_cons, List.not_mem_nil, or_false] at hk
  rcases hk with rfl | rfl | rfl | rfl | rfl
  · exact ⟨JValue.jint 0, rfl, Or.inr (Or.inl ⟨0, rfl⟩)⟩
  · exact ⟨JValue.jbool true, rfl, Or.inr (Or.inr ⟨true, rfl⟩)⟩
  · exact ⟨JValue.jstr "a", rfl, Or.inl ⟨"a", rfl⟩⟩
  · exact ⟨JValue.jbool false, rfl, Or.inr (Or.inr ⟨false, rfl⟩)⟩
  · exact ⟨JValue.jstr "c", rfl, Or.inl ⟨"c", rfl⟩⟩

/-- The deletion loop of _cleanup_old_backups stops at the first failing
unlink: the names before the failure are deleted, nothing after it is
attempted. -/
theorem unlinkLoop_stops_at_failure (o : Oracle) (ns1 : List FName)
    (nf : FName) (ns2 : List FName) (st : FS)
    (h1 : ∀ n ∈ ns1, o.unlink_fails n = false)
    (hf : o.unlink_fails nf = true) :
    unlinkLoop o st (ns1 ++ nf :: ns2) = ns1.foldl FS.del st := by
  induction ns1 generalizing st with
  | nil => simp [unlinkLoop, hf]
  | cons n rest ih =>
    have hn : o.unlink_fails n = false := h1 n (List.mem_cons_self _ _)
    simp only [List.cons_append, unlinkLoop, hn, Bool.false_eq_true, if_false,
      List.foldl_cons]
    exact ih (st.del n) (fun x hx => h1 x (List.mem_cons_of_mem _ hx))

/-- Deleting a worklist of names leaves every other name unchanged. -/
theorem lookup_foldl_del_of_not_mem (ns : List FName) (st : FS) {m : FName}
    (h : m ∉ ns) : (ns.foldl FS.del st).lookup m = st.lookup m := by
  induction ns generalizing st with
  | nil => rfl
  | cons n rest ih =>
    rw [List.foldl_cons, ih (st.del n) (fun hm => h (List.mem_cons_of_mem _ hm)),
      FS.lookup_del_ne st (fun he : m = n =>
        h (by rw [he]; exact List.mem_cons_self _ _))]

/-- Claim C9, amended.  During retention pruning a failure to delete one
excess snapshot aborts the rest of the pruning pass: the `try` block of
_cleanup_old_backups wraps the whole deletion loop, so the exception (then
logged at the function level) skips every excess snapshot after the
failing one in the deletion order — each of them survives the pass even
though its own deletion would have succeeded. -/
theorem cleanup_old_backups_aborts_on_unlink_failure (o : Oracle)
    (bm : BackupManager) (st : FS) (stem ext : FName)
    (ns1 ns2 : List FName) (nf m : FName)
    (hsplit : ((List.insertionSort mtimeDesc (st.files.filter
        (fun e => matchesBackup stem ext e.name))).drop
        bm.retention_count).map FileEntry.name = ns1 ++ nf :: ns2)
    (h1 : ∀ n ∈ ns1, o.unlink_fails n = false)
    (hf : o.unlink_fails nf = true)
    (hm : m ∈ ns2 ∨ m = nf) (hm1 : m ∉ ns1) :
    (cleanup_old_backups o bm st stem ext).lookup m = st.lookup m := by
  unfold cleanup_old_backups
  by_cases hle : (st.files.filter
      (fun e => matchesBackup stem ext e.name)).length ≤ bm.retention_count
  · simp [hle]
  · simp only [hle, if_false]
    rw [hsplit, unlinkLoop_stops_at_failure o ns1 nf ns2 st h1 hf]
    exact lookup_foldl_del_of_not_mem ns1 st hm1

/-- Claim C9 counterexample.  Three snapshots, retention 1: the two
oldest (`c_2_backup.j`, then `c_1_backup.j`) are slated for deletion;
unlinking `c_2_backup.j` raises while unlinking `c_1_backup.j` would
succeed — yet after the pruning pass `c_1_backup.j` still exists, because
the exception aborted the whole loop instead of being skipped per file. -/
theorem cleanup_unlink_failure_aborts_counterexample :
    (((List.insertionSort mtimeDesc
          ((⟨[⟨"c_1_backup.j".data, 1, [1]⟩, ⟨"c_2_backup.j".data, 2, [2]⟩,
              ⟨"c_3_backup.j".data, 3, [3]⟩], 10⟩ : FS).files.filter
            (fun e => matchesBackup "c".data ".j".data e.name))).drop 1).map
        FileEntry.name = ["c_2_backup.j".data, "c_1_backup.j".data]) ∧
    (cleanup_old_backups
        { Oracle.ok with unlink_fails := fun n => n = "c_2_backup.j".data }
        ⟨1, true⟩
        ⟨[⟨"c_1_backup.j".data, 1, [1]⟩, ⟨"c_2_backup.j".data, 2, [2]⟩,
          ⟨"c_3_backup.j".data, 3, [3]⟩], 10⟩
        "c".data ".j".data).lookup "c_1_backup.j".data = some [1] ∧
    ({ Oracle.ok with unlink_fails := fun n => n = "c_2_backup.j".data }
        : Oracle).unlink_fails "c_1_backup.j".data = false := by
  refine ⟨by decide, by decide, by decide⟩

/-- Witness for the amended claim C9 at a concrete input: with the first
slated deletion failing, the second slated snapshot survives the pass. -/
theorem cleanup_old_backups_aborts_on_unlink_failure_witness :
    (cleanup_old_backups
        { Oracle.ok with unlink_fails := fun n => n = "c_2_backup.j".data }
        ⟨1, true⟩
        ⟨[⟨"c_1_backup.j".data, 1, [1]⟩, ⟨"c_2_backup.j".data, 2, [2]⟩,
          ⟨"c_3_backup.j".data, 3, [3]⟩], 10⟩
        "c".data ".j".data).lookup "c_1_backup.j".data =
      (⟨[⟨"c_1_backup.j".data, 1, [1]⟩, ⟨"c_2_backup.j".data, 2, [2]⟩,
          ⟨"c_3_backup.j".data, 3, [3]⟩], 10⟩ : FS).lookup
        "c_1_backup.j".data :=
  cleanup_old_backups_aborts_on_unlink_failure
    { Oracle.ok with unlink_fails := fun n => n = "c_2_backup.j".data }
    ⟨1, true⟩
    ⟨[⟨"c_1_backup.j".data, 1, [1]⟩, ⟨"c_2_backup.j".data, 2, [2]⟩,
      ⟨"c_3_backup.j".data, 3, [3]⟩], 10⟩
    "c".data ".j".data
    [] ["c_1_backup.j".data] "c_2_backup.j".data "c_1_backup.j".data
    (by decide) (fun n hn => absurd hn (by simp)) (by decide)
    (Or.inl (by simp)) (by simp)

/-- Claim C6: supporting fact.  The default configuration does define
`write_timeout_seconds = 30` — but SafeWriteConfig is the only place the
key exists; AtomicFileWriter receives no configuration (its constructor
takes only the target path and a backup manager) and no code reads the
key, so no timeout is enforced anywhere in the write sequence. -/
theorem default_config_write_timeout :
    (SafeWriteConfig.init none).get "write_timeout_seconds" =
      some (ConfigVal.i 30) := by
  decide

/-- Writing a file preserves directory well-formedness: the overwritten
name is removed first, and the fresh mtime (the clock) exceeds every
existing mtime. -/
theorem FS.WF.write {st : FS} (h : st.WF) (n : FName) (c : Bytes) :
    (st.write n c).WF := by
  refine ⟨?_, ?_, ?_⟩
  · simp only [FS.write, List.map_cons, List.nodup_cons]
    constructor
    · intro hmem
      obtain ⟨e, he, hname⟩ := List.mem_map.mp hmem
      have := List.of_mem_filter he
      simp only [ne_eq, decide_not, Bool.not_eq_true', decide_eq_false_iff_not] at this
      exact this hname
    · exact h.nodup_names.sublist ((List.filter_sublist st.files).map _)
  · simp only [FS.write, List.map_cons, List.nodup_cons]
    constructor
    · intro hmem
      obtain ⟨e, he, hmt⟩ := List.mem_map.mp hmem
      have := h.mtime_lt_clock e (List.mem_of_mem_filter he)
      omega
    · exact h.nodup_mtimes.sublist ((List.filter_sublist st.files).map _)
  · intro e he
    rcases List.mem_cons.mp he with rfl | he1
    · simp [FS.write]
    · have := h.mtime_lt_clock e (List.mem_of_mem_filter he1)
      simp only [FS.write]
      omega

/-- In a well-formed directory, looking up a member entry's name returns
that entry's content. -/
theorem FS.lookup_of_mem {st : FS} (h : st.WF) {e : FileEntry}
    (he : e ∈ st.files) : st.lookup e.name = some e.content := by
  unfold FS.lookup
  cases hf : st.files.find? (fun f => f.name = e.name) with
  | none =>
    have := List.find?_eq_none.mp hf e he
    simp at this
  | some f =>
    have hmem := List.mem_of_find?_eq_some hf
    have hname := List.find?_some hf
    simp only [decide_eq_true_eq] at hname
    have : f = e := List.inj_on_of_nodup_map h.nodup_names hmem he hname
    rw [this]

/-- Folding deletions over a worklist filters out exactly those names. -/
theorem foldl_del_files (ns : List FName) (st : FS) :
    (ns.foldl FS.del st).files = st.files.filter (fun e => e.name ∉ ns) := by
  induction ns generalizing st with
  | nil => simp
  | cons n rest ih =>
    rw [List.foldl_cons, ih]
    simp only [FS.del, List.filter_filter]
    apply List.filter_congr
    intro e _
    by_cases h1 : e.name = n <;> by_cases h2 : e.name ∈ rest <;>
      simp [h1, h2]

/-- When no unlink fails the deletion loop deletes its whole worklist. -/
theorem unlinkLoop_all_ok (o : Oracle) (ns : List FName) (st : FS)
    (h : ∀ n ∈ ns, o.unlink_fails n = false) :
    unlinkLoop o st ns = ns.foldl FS.del st := by
  induction ns generalizing st with
  | nil => rfl
  | cons n rest ih =>
    have hn := h n (List.mem_cons_self _ _)
    simp only [unlinkLoop, hn, Bool.false_eq_true, if_false, List.foldl_cons]
    exact ih (st.del n) (fun x hx => h x (List.mem_cons_of_mem _ hx))

/-- Claim C5.  restore_from_backup with no snapshot matching the backup
glob returns false and leaves the whole directory (in particular the
target) unchanged.  With at least one snapshot, the newest by modification
time is selected (its mtime bounds every matching snapshot's): if it
passes validation and the copy succeeds, its bytes are copied onto the
target and the call returns true; if the newest snapshot fails validation
the call returns false and changes nothing; if the copy fails the call
returns false. -/
theorem restore_from_backup_spec (o : Oracle) (parse : Bytes → Option JValue)
    (st : FS) (stem ext : FName) (hwf : st.WF) :
    ((st.files.filter (fun e => matchesBackup stem ext e.name)) = [] →
      restore_from_backup o parse st stem ext = (false, st)) ∧
    (∀ latest rest,
      List.insertionSort mtimeDesc (st.files.filter
        (fun e => matchesBackup stem ext e.name)) = latest :: rest →
      (∀ g ∈ st.files.filter (fun e => matchesBackup stem ext e.name),
        g.mtime ≤ latest.mtime) ∧
      (validate_json_file parse st latest.name = false →
        restore_from_backup o parse st stem ext = (false, st)) ∧
      (o.restore_copy_fails = true →
        (restore_from_backup o parse st stem ext).1 = false) ∧
      (validate_json_file parse st latest.name = true →
        o.restore_copy_fails = false →
        (restore_from_backup o parse st stem ext).1 = true ∧
        ((restore_from_backup o parse st stem ext).2).lookup
          (targetName stem ext) = some latest.content)) := by
  constructor
  · intro h
    unfold restore_from_backup
    simp [h]
  · intro latest rest hsort
    have hlmem : latest ∈ st.files.filter
        (fun e => matchesBackup stem ext e.name) := by
      have h1 : latest ∈ List.insertionSort mtimeDesc (st.files.filter
          (fun e => matchesBackup stem ext e.name)) := by
        rw [hsort]
        exact List.mem_cons_self _ _
      exact (List.mem_insertionSort mtimeDesc).mp h1
    have hne : (st.files.filter
        (fun e => matchesBackup stem ext e.name)).isEmpty = false := by
      cases hfe : st.files.filter (fun e => matchesBackup stem ext e.name) with
      | nil => rw [hfe] at hlmem; exact absurd hlmem (by simp)
      | cons a l => rfl
    have hmax : ∀ g ∈ st.files.filter (fun e => matchesBackup stem ext e.name),
        g.mtime ≤ latest.mtime := by
      intro g hg
      have hg1 : g ∈ latest :: rest := by
        rw [← hsort]
        exact (List.mem_insertionSort mtimeDesc).mpr hg
      rcases List.mem_cons.mp hg1 with rfl | hg2
      · exact le_refl _
      · have hsorted := List.sorted_insertionSort mtimeDesc
          (st.files.filter (fun e => matchesBackup stem ext e.name))
        rw [hsort] at hsorted
        exact List.rel_of_sorted_cons hsorted g hg2
    refine ⟨hmax, ?_, ?_, ?_⟩
    · intro hv
      unfold restore_from_backup
      simp [hne, hsort, hv]
    · intro hc
      unfold restore_from_backup
      by_cases hv : validate_json_file parse st latest.name = true
      · simp [hne, hsort, hv, hc]
      · simp only [Bool.not_eq_true] at hv
        simp [hne, hsort, hv]
    · intro hv hc
      unfold restore_from_backup
      have hl : st.lookup latest.name = some latest.content :=
        FS.lookup_of_mem hwf (List.mem_of_mem_filter hlmem)
      simp only [hne, Bool.false_eq_true, if_false, hsort, hv, not_true,
        hc, hl]
      exact ⟨trivial, FS.lookup_write_self st _ latest.content⟩

/-- Witness for claim C5 at a concrete input: one valid snapshot is
restored onto the target and the call returns true. -/
theorem restore_from_backup_spec_witness :
    (restore_from_backup Oracle.ok
        (fun c => if c = [1] then some (JValue.jarr []) else none)
        ⟨[⟨"c_1_backup.j".data, 1, [1]⟩], 2⟩ "c".data ".j".data).1 = true ∧
    ((restore_from_backup Oracle.ok
        (fun c => if c = [1] then some (JValue.jarr []) else none)
        ⟨[⟨"c_1_backup.j".data, 1, [1]⟩], 2⟩ "c".data ".j".data).2).lookup
      (targetName "c".data ".j".data) = some [1] := by
  have h := restore_from_backup_spec Oracle.ok
    (fun c => if c = [1] then some (JValue.jarr []) else none)
    ⟨[⟨"c_1_backup.j".data, 1, [1]⟩], 2⟩ "c".data ".j".data
    ⟨by decide, by decide, by decide⟩
  exact (h.2 ⟨"c_1_backup.j".data, 1, [1]⟩ [] (by decide)).2.2.2
    (by decide) rfl

/-- Claim C4, amended, happy path.  When backups are enabled, the target
exists, the snapshot copy succeeds and every pruning deletion succeeds,
then after create_backup returns the number of snapshots matching the
target's backup glob is at most retention_count, and the survivors are
precisely the most recent ones: every pruned snapshot of the post-copy
family is strictly older (by mtime) than every surviving one.  (Early-exit
calls — backups disabled, target missing, copy failure — leave the
snapshot family unchanged, so they preserve the bound only when it already
held, which is what the counterexample exploits.) -/
theorem create_backup_retention (o : Oracle) (bm : BackupManager) (st : FS)
    (stem ext : FName) (content : Bytes) (hwf : st.WF)
    (hen : bm.enable_backup = true)
    (hex : st.lookup (targetName stem ext) = some content)
    (hcopy : o.backup_copy_fails = false)
    (hunlink : ∀ n, o.unlink_fails n = false) :
    (((create_backup o bm st stem ext).2).files.filter
        (fun e => matchesBackup stem ext e.name)).length ≤ bm.retention_count ∧
    (∀ f ∈ ((create_backup o bm st stem ext).2).files.filter
        (fun e => matchesBackup stem ext e.name),
      ∀ g ∈ (st.write (backupName stem (toString st.clock).data ext)
          content).files.filter (fun e => matchesBackup stem ext e.name),
        g ∉ ((create_backup o bm st stem ext).2).files.filter
          (fun e => matchesBackup stem ext e.name) →
        g.mtime < f.mtime) := by
  have hwf1 : (st.write (backupName stem (toString st.clock).data ext)
      content).WF := hwf.write _ _
  have hred : (create_backup o bm st stem ext).2 =
      cleanup_old_backups o bm
        (st.write (backupName stem (toString st.clock).data ext) content)
        stem ext := by
    unfold create_backup
    simp [hen, hex, hcopy]
  rw [hred]
  set st1 := st.write (backupName stem (toString st.clock).data ext) content
    with hst1
  set matched1 := st1.files.filter (fun e => matchesBackup stem ext e.name)
    with hmatched1
  unfold cleanup_old_backups
  by_cases hle : matched1.length ≤ bm.retention_count
  · rw [← hmatched1, if_pos hle]
    exact ⟨hle, fun f hf g hg hgn => absurd hg hgn⟩
  · rw [← hmatched1]
    simp only [hle, if_false]
    set srt := List.insertionSort mtimeDesc matched1 with hsrt_def
    set toDel := List.drop bm.retention_count srt with htoDel
    set delNames := toDel.map FileEntry.name with hdelNames
    rw [unlinkLoop_all_ok o delNames st1 (fun n _ => hunlink n),
      foldl_del_files]
    have hperm : List.Perm srt matched1 := List.perm_insertionSort mtimeDesc _
    have hsortd : List.Sorted mtimeDesc srt :=
      List.sorted_insertionSort mtimeDesc _
    have hnodupN : (matched1.map FileEntry.name).Nodup :=
      hwf1.nodup_names.sublist ((List.filter_sublist st1.files).map _)
    have hnodupM : (matched1.map FileEntry.mtime).Nodup :=
      hwf1.nodup_mtimes.sublist ((List.filter_sublist st1.files).map _)
    have hsortedN : (srt.map FileEntry.name).Nodup :=
      ((hperm.map FileEntry.name).nodup_iff).mpr hnodupN
    have hsplit : srt = List.take bm.retention_count srt ++ toDel :=
      (List.take_append_drop bm.retention_count srt).symm
    have hmem_toDel : ∀ e ∈ matched1, (e.name ∈ delNames ↔ e ∈ toDel) := by
      intro e he
      constructor
      · intro hn
        obtain ⟨f, hfD, hfname⟩ := List.mem_map.mp hn
        have hfs : f ∈ srt := by
          rw [hsplit]
          exact List.mem_append_right _ hfD
        have hes : e ∈ srt := hperm.mem_iff.mpr he
        have : e = f := List.inj_on_of_nodup_map hsortedN hes hfs hfname.symm
        rw [this]
        exact hfD
      · intro hD
        exact List.mem_map_of_mem _ hD
    -- the surviving matched files are the filter of matched1 by fresh names
    have hsurv : (st1.files.filter (fun e => e.name ∉ delNames)).filter
        (fun e => matchesBackup stem ext e.name) =
        matched1.filter (fun e => e.name ∉ delNames) := by
      rw [hmatched1, List.filter_filter, List.filter_filter]
      apply List.filter_congr
      intro e _
      rw [Bool.and_comm]
    rw [hsurv]
    constructor
    · -- the retention bound
      have hpf : List.Perm (srt.filter (fun e => e.name ∉ delNames))
          (matched1.filter (fun e => e.name ∉ delNames)) :=
        hperm.filter _
      have hdrop_nil : toDel.filter (fun e => e.name ∉ delNames) = [] := by
        rw [List.filter_eq_nil_iff]
        intro e he
        simp only [decide_not, Bool.not_eq_true', decide_eq_false_iff_not,
          Decidable.not_not]
        exact List.mem_map_of_mem _ he
      have hlen : (matched1.filter (fun e => e.name ∉ delNames)).length =
          ((List.take bm.retention_count srt).filter
            (fun e => e.name ∉ delNames)).length := by
        rw [← hpf.length_eq]
        conv_lhs => rw [hsplit]
        rw [List.filter_append, hdrop_nil, List.append_nil]
      rw [hlen]
      exact le_trans (List.length_filter_le _ _) (List.length_take_le _ _)
    · -- every pruned snapshot is older than every survivor
      intro f hf g hg hgn
      have hfm : f ∈ matched1 ∧ f.name ∉ delNames := by
        have := List.mem_filter.mp hf
        simpa using this
      have hgm : g ∈ matched1 := hg
      have hgD : g ∈ toDel := by
        by_cases hgq : g.name ∈ delNames
        · exact (hmem_toDel g hgm).mp hgq
        · exact absurd (List.mem_filter.mpr ⟨hgm, by simpa using hgq⟩) hgn
      have hfT : f ∈ List.take bm.retention_count srt := by
        have hfs : f ∈ srt := hperm.mem_iff.mpr hfm.1
        rw [hsplit] at hfs
        rcases List.mem_append.mp hfs with h1 | h1
        · exact h1
        · exact absurd ((hmem_toDel f hfm.1).mpr h1) hfm.2
      have hrel : g.mtime ≤ f.mtime :=
        List.Sorted.rel_of_mem_take_of_mem_drop hsortd hfT hgD
      have hne : f ≠ g := by
        intro he
        apply hfm.2
        rw [he]
        exact List.mem_map_of_mem _ hgD
      have hmne : g.mtime ≠ f.mtime := by
        intro he
        exact hne (List.inj_on_of_nodup_map hnodupM hfm.1 hgm he.symm)
      omega

/-- Witness for the amended claim C4 at a concrete input: retention 1,
one old snapshot, a successful backup of the existing target — afterwards
at most one snapshot survives and every pruned snapshot is older than
every survivor. -/
theorem create_backup_retention_witness :
    (((create_backup Oracle.ok ⟨1, true⟩
        ⟨[⟨"c.j".data, 0, [7]⟩, ⟨"c_0_backup.j".data, 1, [5]⟩], 5⟩
        "c".data ".j".data).2).files.filter
      (fun e => matchesBackup "c".data ".j".data e.name)).length ≤ 1 ∧
    (∀ f ∈ ((create_backup Oracle.ok ⟨1, true⟩
        ⟨[⟨"c.j".data, 0, [7]⟩, ⟨"c_0_backup.j".data, 1, [5]⟩], 5⟩
        "c".data ".j".data).2).files.filter
        (fun e => matchesBackup "c".data ".j".data e.name),
      ∀ g ∈ ((⟨[⟨"c.j".data, 0, [7]⟩, ⟨"c_0_backup.j".data, 1, [5]⟩], 5⟩ : FS).write
          (backupName "c".data (toString (5 : Nat)).data ".j".data)
          [7]).files.filter (fun e => matchesBackup "c".data ".j".data e.name),
        g ∉ ((create_backup Oracle.ok ⟨1, true⟩
            ⟨[⟨"c.j".data, 0, [7]⟩, ⟨"c_0_backup.j".data, 1, [5]⟩], 5⟩
            "c".data ".j".data).2).files.filter
          (fun e => matchesBackup "c".data ".j".data e.name) →
        g.mtime < f.mtime) :=
  create_backup_retention Oracle.ok ⟨1, true⟩
    ⟨[⟨"c.j".data, 0, [7]⟩, ⟨"c_0_backup.j".data, 1, [5]⟩], 5⟩
    "c".data ".j".data [7]
    ⟨by decide, by decide, by decide⟩ rfl (by decide) rfl (fun _ => rfl)

/-- Claim C4 counterexample.  create_backup with backups disabled returns
immediately and never prunes: with four pre-existing snapshots and
retention_count 3 the call returns while four snapshots — more than
retention_count — still match the target's backup glob. -/
theorem create_backup_disabled_keeps_excess_counterexample :
    (((create_backup Oracle.ok ⟨3, false⟩
        ⟨[⟨"c_1_backup.j".data, 1, [1]⟩, ⟨"c_2_backup.j".data, 2, [2]⟩,
          ⟨"c_3_backup.j".data, 3, [3]⟩, ⟨"c_4_backup.j".data, 4, [4]⟩], 10⟩
        "c".data ".j".data).2).files.filter
      (fun e => matchesBackup "c".data ".j".data e.name)).length = 4 ∧
    ¬ ((4 : Nat) ≤ 3) := by
  exact ⟨by decide, by decide⟩
